import Mathlib

/-!
Shallow embedding of the REMODELS quantile-regression-averaging wrappers
(`sFQRA`, `QRM`) and the `ClippingScaler` transformer, together with proofs
of the specification claims about them.

Numeric values are embedded as rationals (`ℚ`): outside of division by
zero, the numpy float operations used by this code are ordinary field
arithmetic.  `np.sqrt` is irrational in general, so definitions that need
it take an abstract square-root function `sq : ℚ → ℚ` as a parameter;
concrete instantiations use `Rat.sqrt`, which agrees with the real square
root on the perfect squares that the concrete inputs produce.  Division by
zero inside `sFQRA._zscore` is modelled separately with an `NpFloat` type
capturing IEEE-754 semantics (`0/0 = NaN`, `x/0 = ±inf`).

The inner models that the wrappers delegate to (`FQRA`, `QRA`) live outside
the four source files; the wrappers are therefore parametrized over the
inner `fit`/`predict` functions, exactly as the source calls
`super().fit`/`super().predict`.
-/

/-- A matrix: a list of rows of rationals (numpy 2-d array, rows =
observations, columns = forecasters). -/
abbrev Mat : Type := List (List ℚ)

/-- A vector of rationals (numpy 1-d array). -/
abbrev Vec : Type := List ℚ

/-- Embeds `np.mean(xs)` for one row: sum divided by length. -/
def rowMean (xs : List ℚ) : ℚ := xs.sum / xs.length

/-- Embeds the variance computed inside `np.std(xs)`: the mean of the
squared deviations from the mean, with divisor `n` (numpy default
`ddof = 0`). -/
def rowVar (xs : List ℚ) : ℚ :=
  ((xs.map (fun x => (x - rowMean xs) ^ 2)).sum) / xs.length

/-- Embeds `np.std(xs)`: the square root of `rowVar`, with the square root
abstracted as a parameter `sq` (see the file header). -/
def rowStd (sq : ℚ → ℚ) (xs : List ℚ) : ℚ := sq (rowVar xs)

/-- Sample variance with the `n - 1` divisor (`ddof = 1`).  This definition
follows the claim wording, not the source; it exists only to be compared
against `rowVar`, the variance the source actually uses. -/
def sampleVar (xs : List ℚ) : ℚ :=
  ((xs.map (fun x => (x - rowMean xs) ^ 2)).sum) / ((xs.length : ℚ) - 1)

namespace ClippingScaler

/-- Embeds `np.sign`. -/
def npsign (x : ℚ) : ℚ := if 0 < x then 1 else if x < 0 then -1 else 0

/-- Embeds one scalar of `ClippingScaler._clip_data`:
`np.where(np.abs(data) > k, k * np.sign(data), data)`. -/
def clipScalar (k x : ℚ) : ℚ := if |x| > k then k * npsign x else x

/-- Embeds `ClippingScaler._clip_data` on a 2-d array. -/
def clipMat (k : ℚ) (X : Mat) : Mat := X.map (fun r => r.map (clipScalar k))

/-- Embeds one scalar of `np.clip(data, -k, k)` as used by
`ClippingScaler.inverse_transform`: numpy computes
`minimum(maximum(data, -k), k)`. -/
def npclipScalar (k x : ℚ) : ℚ := min (max x (-k)) k

/-- Embeds `np.clip(X, -k, k)` on a 2-d array. -/
def npclipMat (k : ℚ) (X : Mat) : Mat := X.map (fun r => r.map (npclipScalar k))

/-- A labeled table (pandas DataFrame): a row index, column labels, and the
numeric values.  Transformers compute on the raw values and rebuild the
labels around them. -/
structure DataFrame (ι κ : Type) : Type where
  index : List ι
  columns : List κ
  values : Mat

/-- Modelled from the spec: `BaseScaler._to_dataframe` is not among the
source files (only its test is).  Per the spec, the output of a transform
on a labeled input is "constructed fresh as a labeled table whose columns
equal the input's columns and whose index equals the input's index, over
the numeric transformed values". -/
def to_dataframe (original : DataFrame ι κ) (transformed : Mat) :
    DataFrame ι κ :=
  ⟨original.index, original.columns, transformed⟩

/-- Result of `ClippingScaler.transform`: a single table when `y` was
omitted, a pair of tables when `y` was given. -/
inductive TransformResult (ι κ : Type) : Type where
  | single : DataFrame ι κ → TransformResult ι κ
  | pair : DataFrame ι κ → DataFrame ι κ → TransformResult ι κ

/-- Embeds `ClippingScaler.transform`: clip `X` (and `y` when present) and
rebuild the labels; a tuple is returned only when `y` is not `None`. -/
def transform (k : ℚ) (X : DataFrame ι κ) (y : Option (DataFrame ι κ)) :
    TransformResult ι κ :=
  match y with
  | some ydf =>
      .pair (to_dataframe X (clipMat k X.values))
        (to_dataframe ydf (clipMat k ydf.values))
  | none => .single (to_dataframe X (clipMat k X.values))

/-- Embeds `ClippingScaler.inverse_transform`: clamp each given component
to `[-k, k]`, pass `None` through unchanged, and always return the pair.
The `None` pass-through of `_to_dataframe` is modelled from the spec, as
`BaseScaler` is not among the source files. -/
def inverse_transform (k : ℚ) (X y : Option (DataFrame ι κ)) :
    Option (DataFrame ι κ) × Option (DataFrame ι κ) :=
  (X.map (fun d => to_dataframe d (npclipMat k d.values)),
   y.map (fun d => to_dataframe d (npclipMat k d.values)))

end ClippingScaler

/-- A numpy double as produced by dividing finite values: either finite, an
infinity, or NaN.  Only division can leave the finite range here, since the
inputs, means and standard deviations are all finite. -/
inductive NpFloat : Type where
  | fin : ℚ → NpFloat
  | inf : NpFloat
  | ninf : NpFloat
  | nan : NpFloat
deriving DecidableEq

/-- IEEE-754 division of two finite values, as numpy performs it: a zero
divisor yields NaN for a zero numerator and a signed infinity otherwise; it
warns but does not raise. -/
def npDiv (a b : ℚ) : NpFloat :=
  if b = 0 then (if a = 0 then .nan else if 0 < a then .inf else .ninf)
  else .fin (a / b)

namespace sFQRA

/-- Embeds `sFQRA._zscore`: per-row mean (`np.mean(X, axis=1)`) and
standard deviation (`np.std(X, axis=1)`), and the matrix standardized by
broadcasting them across each row.  The square root inside `np.std` is the
parameter `sq`.  This version is the exact rational semantics, valid when
no division by zero occurs (no zero-variance row). -/
def zscore (sq : ℚ → ℚ) (X : Mat) : Mat × Vec × Vec :=
  (X.map (fun r => r.map (fun x => (x - rowMean r) / rowStd sq r)),
   X.map rowMean, X.map (rowStd sq))

/-- Embeds `sFQRA.fit`: standardize `X`, standardize `y` elementwise by the
same per-row mean and standard deviation (`y = (y - mean) / std`), and
delegate to `FQRA.fit` — which lies outside the source files and is
therefore the parameter `fqra_fit`. -/
def fit (fqra_fit : Mat → Vec → α) (sq : ℚ → ℚ) (X : Mat) (y : Vec) : α :=
  let z := zscore sq X
  let y2 := List.zipWith (· / ·) (List.zipWith (· - ·) y z.2.1) z.2.2
  fqra_fit z.1 y2

/-- Embeds `sFQRA.predict`: standardize `X` with statistics freshly
computed from this `X`, delegate to `FQRA.predict` (the parameter
`fqra_predict`), and de-standardize the result as `y * std + mean`.  No
fit-time statistic appears: the method reads nothing but its argument and
the inner model. -/
def predict (fqra_predict : Mat → Vec) (sq : ℚ → ℚ) (X : Mat) : Vec :=
  let z := zscore sq X
  let y := fqra_predict z.1
  List.zipWith (· + ·) (List.zipWith (· * ·) y z.2.2) z.2.1

/-- Embeds the standardized matrix of `sFQRA._zscore` with IEEE division
semantics (`npDiv`), refining `zscore` on inputs where a row has zero
standard deviation: numpy then produces NaN or infinities and continues. -/
def zscoreF (sq : ℚ → ℚ) (X : Mat) : List (List NpFloat) × Vec × Vec :=
  (X.map (fun r => r.map (fun x => npDiv (x - rowMean r) (rowStd sq r))),
   X.map rowMean, X.map (rowStd sq))

end sFQRA

namespace QRM

/-- Embeds the reduction `np.mean(X, axis=1, keepdims=True)` of `QRM.fit`
and `QRM.predict`: the single-column matrix of row-wise means. -/
def rowMeanCol (X : Mat) : Mat := X.map (fun r => [rowMean r])

/-- Embeds `QRM.fit`: replace `X` by its row-wise mean column and delegate
to `QRA.fit` — which lies outside the source files and is therefore the
parameter `qra_fit`. -/
def fit (qra_fit : Mat → Vec → α) (X : Mat) (y : Vec) : α :=
  qra_fit (rowMeanCol X) y

/-- Embeds `QRM.predict`: reduce `X` identically and delegate to
`QRA.predict` (the parameter `qra_predict`). -/
def predict (qra_predict : Mat → Vec) (X : Mat) : Vec :=
  qra_predict (rowMeanCol X)

end QRM

/-- A permutation of the columns of a matrix: every row is reordered by the
same permutation `σ` of the column positions (rows are assumed to have
length `n`; out-of-range positions default to `0`). -/
def permuteCols (n : ℕ) (σ : Equiv.Perm (Fin n)) (X : Mat) : Mat :=
  X.map (fun r => List.ofFn (fun j => r.getD (σ j) 0))

/-- Standardizing a vector by the mapped row statistics is the same as
zipping it row-for-row with the matrix (helper). -/
theorem zipWith_sub_div_map (sq : ℚ → ℚ) (y : Vec) (X : Mat) :
    List.zipWith (· / ·) (List.zipWith (· - ·) y (X.map rowMean))
        (X.map (rowStd sq)) =
      List.zipWith (fun yi r => (yi - rowMean r) / rowStd sq r) y X := by
  induction y generalizing X with
  | nil => simp
  | cons a l ih =>
    cases X with
    | nil => simp
    | cons r X' => simp [ih]

/-- The row mean of a row with all entries equal to `c` is `c` (helper). -/
theorem rowMean_const (r : List ℚ) (c : ℚ) (hc : ∀ x ∈ r, x = c)
    (hne : r ≠ []) : rowMean r = c := by
  have hlen : (r.length : ℚ) ≠ 0 := by
    have : r.length ≠ 0 := fun h => hne (List.length_eq_zero.mp h)
    exact_mod_cast this
  unfold rowMean
  rw [List.sum_eq_card_nsmul r c hc, nsmul_eq_mul]
  field_simp

/-- The row variance of a row with all entries equal is zero (helper). -/
theorem rowVar_const (r : List ℚ) (c : ℚ) (hc : ∀ x ∈ r, x = c)
    (hne : r ≠ []) : rowVar r = 0 := by
  unfold rowVar
  rw [List.sum_eq_zero, zero_div]
  intro x hx
  simp only [List.mem_map] at hx
  obtain ⟨a, ha, rfl⟩ := hx
  rw [hc a ha, rowMean_const r c hc hne]
  ring

/-- The row mean is invariant under a permutation of the positions of a row
of length `n` (helper for the QRM column-permutation claim). -/
theorem rowMean_permute (n : ℕ) (σ : Equiv.Perm (Fin n)) (r : List ℚ)
    (hr : r.length = n) :
    rowMean (List.ofFn (fun j => r.getD (σ j) 0)) = rowMean r := by
  unfold rowMean
  have hsum : (List.ofFn (fun j => r.getD (σ j) 0)).sum = r.sum := by
    rw [List.sum_ofFn, Equiv.sum_comp σ (fun j : Fin n => r.getD (j : ℕ) 0)]
    subst hr
    conv_rhs => rw [← List.ofFn_get r]
    rw [List.sum_ofFn]
    apply Finset.sum_congr rfl
    intro j _
    rw [List.getD_eq_getElem r 0 j.isLt]
    rfl
  rw [hsum, List.length_ofFn, hr]

/-- Every clipped value lies in `[-k, k]` when `0 ≤ k` (helper shared by the
claim theorems). -/
theorem clipScalar_bounds (k x : ℚ) (hk : 0 ≤ k) :
    -k ≤ ClippingScaler.clipScalar k x ∧ ClippingScaler.clipScalar k x ≤ k := by
  unfold ClippingScaler.clipScalar ClippingScaler.npsign
  split
  · rename_i hgt
    split
    · constructor
      · nlinarith
      · nlinarith
    · split
      · constructor
        · nlinarith
        · nlinarith
      · constructor
        · nlinarith
        · nlinarith
  · rename_i hle
    push_neg at hle
    rw [abs_le] at hle
    exact hle

/-- Clamping a value already in `[-k, k]` leaves it unchanged (helper). -/
theorem npclipScalar_of_bounds (k x : ℚ) (h1 : -k ≤ x) (h2 : x ≤ k) :
    ClippingScaler.npclipScalar k x = x := by
  unfold ClippingScaler.npclipScalar
  rw [max_eq_left (by linarith), min_eq_left h2]

/-- Claim C7 (amended: threshold `0 ≤ k`): every value of the clipped
output lies in `[-k, k]`; a value whose absolute value exceeds `k` is
replaced by `k` times its sign, and a value with absolute value at most
`k` is returned unchanged. -/
theorem clipMat_saturates (k : ℚ) (hk : 0 ≤ k) (X : Mat) :
    (∀ r ∈ ClippingScaler.clipMat k X, ∀ v ∈ r, -k ≤ v ∧ v ≤ k) ∧
    (∀ x : ℚ, (|x| > k →
        ClippingScaler.clipScalar k x = k * ClippingScaler.npsign x) ∧
      (|x| ≤ k → ClippingScaler.clipScalar k x = x)) := by
  constructor
  · intro r hr v hv
    simp only [ClippingScaler.clipMat, List.mem_map] at hr
    obtain ⟨r₀, _, rfl⟩ := hr
    simp only [List.mem_map] at hv
    obtain ⟨x, _, rfl⟩ := hv
    exact clipScalar_bounds k x hk
  · intro x
    constructor
    · intro hgt
      simp [ClippingScaler.clipScalar, hgt]
    · intro hle
      simp [ClippingScaler.clipScalar, not_lt.mpr hle]

/-- Witness for `clipMat_saturates` at `k = 3` and a concrete matrix. -/
theorem clipMat_saturates_witness :
    (0 : ℚ) ≤ 3 ∧
    ((∀ r ∈ ClippingScaler.clipMat 3 [[(-5 : ℚ), 2], [7, 0]],
        ∀ v ∈ r, -3 ≤ v ∧ v ≤ 3) ∧
      (∀ x : ℚ, (|x| > 3 →
          ClippingScaler.clipScalar 3 x = 3 * ClippingScaler.npsign x) ∧
        (|x| ≤ 3 → ClippingScaler.clipScalar 3 x = x))) :=
  ⟨by norm_num, clipMat_saturates 3 (by norm_num) [[(-5 : ℚ), 2], [7, 0]]⟩

/-- Counterexample to claim C7 as stated: with the negative threshold
`k = -1`, the clipped value of `-5` is `1`, which does not lie in
`[-k, k] = [1, -1]`. -/
theorem clipMat_saturates_counterexample :
    ClippingScaler.clipMat (-1) [[(-5 : ℚ)]] = [[(1 : ℚ)]] ∧
      ¬ ((1 : ℚ) ≤ -1) := by
  constructor
  · norm_num [ClippingScaler.clipMat, ClippingScaler.clipScalar,
      ClippingScaler.npsign]
  · norm_num

/-- Claim C6 (amended: threshold `0 ≤ k`): `inverse_transform` applied to
the output of `transform` returns that output unchanged, since all clipped
values already lie within `[-k, k]`.  Stated on the value matrices, which
is what both methods clip. -/
theorem inverse_transform_of_transform_id (k : ℚ) (hk : 0 ≤ k) (X : Mat) :
    ClippingScaler.npclipMat k (ClippingScaler.clipMat k X) =
      ClippingScaler.clipMat k X := by
  unfold ClippingScaler.npclipMat ClippingScaler.clipMat
  rw [List.map_map]
  apply List.map_congr_left
  intro r _
  simp only [Function.comp_apply, List.map_map]
  apply List.map_congr_left
  intro x _
  obtain ⟨h1, h2⟩ := clipScalar_bounds k x hk
  exact npclipScalar_of_bounds k _ h1 h2

/-- Witness for `inverse_transform_of_transform_id` at `k = 3` and a
concrete matrix. -/
theorem inverse_transform_of_transform_id_witness :
    (0 : ℚ) ≤ 3 ∧
    ClippingScaler.npclipMat 3
        (ClippingScaler.clipMat 3 [[(-5 : ℚ), 2], [7, 0]]) =
      ClippingScaler.clipMat 3 [[(-5 : ℚ), 2], [7, 0]] :=
  ⟨by norm_num,
    inverse_transform_of_transform_id 3 (by norm_num) [[(-5 : ℚ), 2], [7, 0]]⟩

/-- Counterexample to claim C6 as stated: with the negative threshold
`k = -1`, clipping `-5` gives `1` but `np.clip(1, 1, -1)` gives `-1`, so
`inverse_transform` does not leave the transformed data unchanged. -/
theorem inverse_transform_of_transform_counterexample :
    ClippingScaler.npclipMat (-1) (ClippingScaler.clipMat (-1) [[(-5 : ℚ)]]) ≠
      ClippingScaler.clipMat (-1) [[(-5 : ℚ)]] := by
  norm_num [ClippingScaler.npclipMat, ClippingScaler.clipMat,
    ClippingScaler.npclipScalar, ClippingScaler.clipScalar,
    ClippingScaler.npsign, min_def, max_def]

/-- Claim C8: a transform that receives a labeled table returns a labeled
table whose column labels and row index equal the input's, over the
transformed numeric values — both when `y` is omitted and when it is
given. -/
theorem transform_preserves_labels (k : ℚ) (X y : ClippingScaler.DataFrame ι κ) :
    ClippingScaler.transform k X none =
        .single ⟨X.index, X.columns, ClippingScaler.clipMat k X.values⟩ ∧
      ClippingScaler.transform k X (some y) =
        .pair ⟨X.index, X.columns, ClippingScaler.clipMat k X.values⟩
          ⟨y.index, y.columns, ClippingScaler.clipMat k y.values⟩ :=
  ⟨rfl, rfl⟩

/-- Claim C10: `transform` with `y` omitted returns a single table, whereas
`inverse_transform` always returns a pair whose `y` component is `None`
when `y` was omitted. -/
theorem transform_single_inverse_always_pair (k : ℚ)
    (X : ClippingScaler.DataFrame ι κ) :
    ClippingScaler.transform k X none =
        .single (ClippingScaler.to_dataframe X
          (ClippingScaler.clipMat k X.values)) ∧
      ClippingScaler.inverse_transform k (some X) none =
        (some (ClippingScaler.to_dataframe X
          (ClippingScaler.npclipMat k X.values)), none) ∧
      ∀ X? : Option (ClippingScaler.DataFrame ι κ),
        (ClippingScaler.inverse_transform k X? none).2 = none :=
  ⟨rfl, rfl, fun _ => rfl⟩

/-- Claim C2: for every fitted inner model (the function `f` standing for
`FQRA.predict` of the fitted instance) and every `X` with no zero-variance
row, `sFQRA.predict X` equals `mean + std * f((X - mean) / std)`, where
`mean` and `std` are recomputed per row from the `X` passed to `predict`
(the right-hand side mentions no fit-time quantity at all). -/
theorem sfqra_predict_destandardizes (f : Mat → Vec) (sq : ℚ → ℚ) (X : Mat)
    (hvar : ∀ r ∈ X, rowVar r ≠ 0) :
    sFQRA.predict f sq X =
      List.zipWith (· + ·) (X.map rowMean)
        (List.zipWith (· * ·) (X.map (rowStd sq))
          (f (X.map (fun r => r.map (fun x => (x - rowMean r) / rowStd sq r))))) := by
  unfold sFQRA.predict sFQRA.zscore
  rw [List.zipWith_comm_of_comm (· * ·) mul_comm,
    List.zipWith_comm_of_comm (· + ·) add_comm]

/-- Witness for `sfqra_predict_destandardizes` at a concrete input. -/
theorem sfqra_predict_destandardizes_witness :
    (∀ r ∈ [[(1 : ℚ), 2]], rowVar r ≠ 0) ∧
    sFQRA.predict (fun _ => [(1 : ℚ)]) Rat.sqrt [[(1 : ℚ), 2]] =
      List.zipWith (· + ·) ([[(1 : ℚ), 2]].map rowMean)
        (List.zipWith (· * ·) ([[(1 : ℚ), 2]].map (rowStd Rat.sqrt))
          ((fun _ => [(1 : ℚ)]) ([[(1 : ℚ), 2]].map
            (fun r => r.map (fun x => (x - rowMean r) / rowStd Rat.sqrt r))))) :=
  ⟨by intro r hr; simp only [List.mem_singleton] at hr; subst hr
      norm_num [rowVar, rowMean],
    sfqra_predict_destandardizes (fun _ => [(1 : ℚ)]) Rat.sqrt [[(1 : ℚ), 2]]
      (by intro r hr; simp only [List.mem_singleton] at hr; subst hr
          norm_num [rowVar, rowMean])⟩

/-- Claim C3: for matching row counts and no zero-variance row,
`sFQRA.fit X y` standardizes `y` element-wise by the per-row mean and
standard deviation of `X`, aligned row-for-row, and delegates to
`FQRA.fit` (the function `f`) with the standardized `X` and `y`. -/
theorem sfqra_fit_standardizes (f : Mat → Vec → α) (sq : ℚ → ℚ) (X : Mat)
    (y : Vec) (hlen : X.length = y.length) (hvar : ∀ r ∈ X, rowVar r ≠ 0) :
    sFQRA.fit f sq X y =
      f (X.map (fun r => r.map (fun x => (x - rowMean r) / rowStd sq r)))
        (List.zipWith (fun yi r => (yi - rowMean r) / rowStd sq r) y X) := by
  show f (X.map (fun r => r.map (fun x => (x - rowMean r) / rowStd sq r)))
      (List.zipWith (· / ·) (List.zipWith (· - ·) y (X.map rowMean))
        (X.map (rowStd sq))) = _
  rw [zipWith_sub_div_map]

/-- Witness for `sfqra_fit_standardizes` at a concrete input. -/
theorem sfqra_fit_standardizes_witness :
    ([[(1 : ℚ), 2]] : Mat).length = ([(5 : ℚ)] : Vec).length ∧
    (∀ r ∈ [[(1 : ℚ), 2]], rowVar r ≠ 0) ∧
    sFQRA.fit (fun Z yz => (Z, yz)) Rat.sqrt [[(1 : ℚ), 2]] [(5 : ℚ)] =
      ((fun Z yz => (Z, yz))
        ([[(1 : ℚ), 2]].map
          (fun r => r.map (fun x => (x - rowMean r) / rowStd Rat.sqrt r)))
        (List.zipWith (fun yi r => (yi - rowMean r) / rowStd Rat.sqrt r)
          [(5 : ℚ)] [[(1 : ℚ), 2]])) :=
  ⟨rfl, by intro r hr; simp only [List.mem_singleton] at hr; subst hr
           norm_num [rowVar, rowMean],
    sfqra_fit_standardizes (fun Z yz => (Z, yz)) Rat.sqrt [[(1 : ℚ), 2]]
      [(5 : ℚ)] rfl
      (by intro r hr; simp only [List.mem_singleton] at hr; subst hr
          norm_num [rowVar, rowMean])⟩

/-- Claim C4: for every non-empty `X`, `QRM.fit X y` is `QRA.fit` (the
function `f`) applied to the single-column matrix of row-wise means of `X`
with `y` unchanged, and `QRM.predict X` is `QRA.predict` (the function
`g`) applied to the same reduction. -/
theorem qrm_reduces_to_row_mean (f : Mat → Vec → α) (g : Mat → Vec)
    (X : Mat) (y : Vec) (hne : X ≠ []) :
    QRM.fit f X y = f (X.map (fun r => [rowMean r])) y ∧
      QRM.predict g X = g (X.map (fun r => [rowMean r])) :=
  ⟨rfl, rfl⟩

/-- Witness for `qrm_reduces_to_row_mean` at a concrete input. -/
theorem qrm_reduces_to_row_mean_witness :
    ([[(1 : ℚ), 2]] : Mat) ≠ [] ∧
    (QRM.fit (fun Z yz => (Z, yz)) [[(1 : ℚ), 2]] [(5 : ℚ)] =
        (fun Z yz => (Z, yz)) ([[(1 : ℚ), 2]].map (fun r => [rowMean r]))
          [(5 : ℚ)] ∧
      QRM.predict (fun Z => Z.map rowMean) [[(1 : ℚ), 2]] =
        (fun Z => Z.map rowMean) ([[(1 : ℚ), 2]].map (fun r => [rowMean r]))) :=
  ⟨List.cons_ne_nil _ _,
    qrm_reduces_to_row_mean (fun Z yz => (Z, yz)) (fun Z => Z.map rowMean)
      [[(1 : ℚ), 2]] [(5 : ℚ)] (List.cons_ne_nil _ _)⟩

/-- Claim C5: `QRM.fit` and `QRM.predict` are invariant under any
permutation of the columns of `X` (all rows having length `n`), because
the row-mean reduction delegated to `QRA` is permutation-invariant. -/
theorem qrm_column_permutation_invariant (f : Mat → Vec → α)
    (g : Mat → Vec) (n : ℕ) (σ : Equiv.Perm (Fin n)) (X : Mat) (y : Vec)
    (hX : ∀ r ∈ X, r.length = n) :
    QRM.fit f (permuteCols n σ X) y = QRM.fit f X y ∧
      QRM.predict g (permuteCols n σ X) = QRM.predict g X := by
  have hcol : QRM.rowMeanCol (permuteCols n σ X) = QRM.rowMeanCol X := by
    unfold QRM.rowMeanCol permuteCols
    rw [List.map_map]
    apply List.map_congr_left
    intro r hr
    simp only [Function.comp_apply]
    rw [rowMean_permute n σ r (hX r hr)]
  exact ⟨by unfold QRM.fit; rw [hcol], by unfold QRM.predict; rw [hcol]⟩

/-- Witness for `qrm_column_permutation_invariant`: swapping the two
columns of a concrete matrix. -/
theorem qrm_column_permutation_invariant_witness :
    (∀ r ∈ [[(1 : ℚ), 2], [3, 4]], r.length = 2) ∧
    (QRM.fit (fun Z yz => (Z, yz))
          (permuteCols 2 (Equiv.swap 0 1) [[(1 : ℚ), 2], [3, 4]]) [(5 : ℚ), 6] =
        QRM.fit (fun Z yz => (Z, yz)) [[(1 : ℚ), 2], [3, 4]] [(5 : ℚ), 6] ∧
      QRM.predict (fun Z => Z.map rowMean)
          (permuteCols 2 (Equiv.swap 0 1) [[(1 : ℚ), 2], [3, 4]]) =
        QRM.predict (fun Z => Z.map rowMean) [[(1 : ℚ), 2], [3, 4]]) :=
  ⟨by simp,
    qrm_column_permutation_invariant (fun Z yz => (Z, yz))
      (fun Z => Z.map rowMean) 2 (Equiv.swap 0 1) [[(1 : ℚ), 2], [3, 4]]
      [(5 : ℚ), 6] (by simp)⟩

/-- Claim C9: the per-row standard deviation that `sFQRA` standardizes
with, in both `fit` and `predict`, is the square root of the population
variance — the sum of squared deviations divided by the column count `n`
(`ddof = 0`) — and this differs from the sample variance with the `n - 1`
divisor, as the concrete row `[0, 2]` shows. -/
theorem sfqra_std_population_not_sample (sq : ℚ → ℚ) (X : Mat) :
    (∀ (y : Vec) (f : Mat → Vec → Vec),
        sFQRA.fit f sq X y =
          f (sFQRA.zscore sq X).1
            (List.zipWith (· / ·) (List.zipWith (· - ·) y (X.map rowMean))
              (X.map (fun r =>
                sq ((r.map (fun x => (x - rowMean r) ^ 2)).sum / r.length))))) ∧
      (∀ g : Mat → Vec,
        sFQRA.predict g sq X =
          List.zipWith (· + ·)
            (List.zipWith (· * ·) (g (sFQRA.zscore sq X).1)
              (X.map (fun r =>
                sq ((r.map (fun x => (x - rowMean r) ^ 2)).sum / r.length))))
            (X.map rowMean)) ∧
      rowVar [(0 : ℚ), 2] = 1 ∧ sampleVar [(0 : ℚ), 2] = 2 := by
  refine ⟨fun y f => rfl, fun g => rfl, ?_, ?_⟩ <;>
    norm_num [rowVar, sampleVar, rowMean]

/-- Claim C1 (amended): on a matrix whose row `i` has all entries equal
(zero per-row standard deviation), the standardization of `sFQRA._zscore`
does not raise: numpy division by zero produces NaN (here `0/0` for every
entry of that row) and the computation continues. -/
theorem zscore_zero_variance_row_nan (sq : ℚ → ℚ) (hsq : sq 0 = 0) (X : Mat)
    (i : ℕ) (hi : i < X.length) (c : ℚ) (hc : ∀ x ∈ X.getD i [], x = c)
    (hne : X.getD i [] ≠ []) :
    ∀ v ∈ (sFQRA.zscoreF sq X).1.getD i [], v = NpFloat.nan := by
  intro v hv
  have hrow : (sFQRA.zscoreF sq X).1.getD i [] =
      (X.getD i []).map
        (fun x => npDiv (x - rowMean (X.getD i []))
          (rowStd sq (X.getD i []))) := by
    unfold sFQRA.zscoreF
    rw [List.getD_eq_getElem _ _ (by simpa using hi), List.getElem_map,
      List.getD_eq_getElem _ _ hi]
  rw [hrow] at hv
  simp only [List.mem_map] at hv
  obtain ⟨x, hx, rfl⟩ := hv
  rw [hc x hx, rowMean_const _ c hc hne, rowStd,
    rowVar_const _ c hc hne, hsq, sub_self]
  simp [npDiv]

/-- Witness for `zscore_zero_variance_row_nan`: the first row of
`[[1, 1], [1, 2]]` is constant, and both of its standardized entries are
NaN. -/
theorem zscore_zero_variance_row_nan_witness :
    (Rat.sqrt 0 = 0 ∧ 0 < ([[(1 : ℚ), 1], [1, 2]] : Mat).length ∧
      (∀ x ∈ ([[(1 : ℚ), 1], [1, 2]] : Mat).getD 0 [], x = 1) ∧
      ([[(1 : ℚ), 1], [1, 2]] : Mat).getD 0 [] ≠ []) ∧
    ∀ v ∈ (sFQRA.zscoreF Rat.sqrt [[(1 : ℚ), 1], [1, 2]]).1.getD 0 [],
      v = NpFloat.nan :=
  ⟨⟨by decide, by norm_num, by simp, by simp⟩,
    zscore_zero_variance_row_nan Rat.sqrt (by decide)
      [[(1 : ℚ), 1], [1, 2]] 0 (by norm_num) 1 (by simp) (by simp)⟩

/-- Counterexample to claim C1 as stated: on the zero-variance matrix
`[[1, 1]]`, `sFQRA._zscore` does not surface an error — it returns a
defined triple whose standardized entries are NaN (mean `1`, standard
deviation `0`, each entry `0/0`). -/
theorem zscore_zero_variance_counterexample :
    sFQRA.zscoreF Rat.sqrt [[(1 : ℚ), 1]] =
      ([[NpFloat.nan, NpFloat.nan]], [1], [0]) := by
  norm_num [sFQRA.zscoreF, rowMean, rowVar, rowStd, npDiv, Rat.sqrt]
